import Mathlib

/-!
Verification development for the qontrol repository (quantum optimal control).

Shallow embedding of:
  * `src/optamiqs/cost.py`   — the cost-functional hierarchy;
  * `src/qontrol/optimize.py` — the `loss` aggregation and the `optimize` loop.

Machine floating-point arrays are modelled by `ℝ`/`ℂ`; `jnp.log` is modelled by
`Real.log`.  `Result.states` carries axes `(batch, initial-state, timestep,
state-dims)`; the two trailing state axes `i, d` of the source are flattened
into a single axis of size `d` since every contraction in the source sums over
both jointly.  The time axis has size `t + 1` so that the source's `[..., -1, :, :]`
slice (the last timestep) is total.

Repository code that the claims depend on but that is not present under `src/`
(`qontrol/options.py`, `qontrol/model.py`, the callable-`Cost`-with-terminate
protocol of `qontrol/cost.py`, `optamiqs/fidelity.py`, and the external default
optimizer `optax.adam`) is modelled from the spec; each such definition carries
a doc comment starting with `Modelled from the spec:`.
-/

namespace Qontrol

/-! ## Data model: `Result` and time-dependent Hamiltonians -/

/-- `dynamiqs.result.Result`, consumed read-only: `states` has axes
(batch `b`, initial-state `s`, timestep, flattened state dims `d`), and
`tsave` is the ordered list of save times (source: spec section 3, consumed by
`src/optamiqs/cost.py`). -/
structure Result (b s t d : ℕ) where
  states : Fin b → Fin s → Fin (t + 1) → Fin d → ℂ
  tsave : List ℝ

/-- A time-dependent Hamiltonian description: a term either exposes the
`prefactor` capability (= Python `hasattr(_H, "prefactor")` true, as for
`PWCTimeArray`/`ModulatedTimeArray`), or it does not, or it is a
`SummedTimeArray` holding its summand terms. -/
inductive TimeArray where
  | withPrefactor (prefactor : ℝ → ℝ)
  | noPrefactor
  | summed (timearrays : List TimeArray)

/-! ## Fidelity functions (not under `src/`) -/

/-- Modelled from the spec: `infidelity_incoherent` from `optamiqs/fidelity.py`
(file absent from `src/`); spec section 6 and glossary: an incoherent-average
infidelity, `0` at perfect state transfer, averaging the squared overlap
`|⟨target_s, final_{b,s}⟩|²` over batch and initial-state indices. -/
noncomputable def infidelity_incoherent {b s d : ℕ}
    (final_states : Fin b → Fin s → Fin d → ℂ)
    (target_states : Fin s → Fin d → ℂ) : ℝ :=
  1 - (∑ i : Fin b, ∑ j : Fin s,
        ‖∑ k : Fin d, (starRingEnd ℂ) (target_states j k) * final_states i j k‖ ^ 2)
      / (b * s)

/-- Modelled from the spec: `infidelity_coherent` from `optamiqs/fidelity.py`
(file absent from `src/`); spec glossary: a phase-preserving infidelity, `0` at
perfect transfer, returning one value per batch entry. -/
noncomputable def infidelity_coherent {b s d : ℕ}
    (final_states : Fin b → Fin s → Fin d → ℂ)
    (target_states : Fin s → Fin d → ℂ) : Fin b → ℝ :=
  fun i => 1 - ‖∑ j : Fin s, ∑ k : Fin d,
      (starRingEnd ℂ) (target_states j k) * final_states i j k‖ ^ 2 / (s ^ 2)

/-! ## `src/optamiqs/cost.py`: the cost hierarchy

Each Python class instance is embedded as its `evaluate` function with the
instance attributes (`cost_multiplier`, `target_states`, ...) passed as leading
arguments. -/

/-- `IncoherentInfidelity.evaluate` (cost.py lines 28-32): slice the final
timestep and apply the incoherent infidelity, scaled by the multiplier. -/
noncomputable def IncoherentInfidelity.evaluate {b s t d : ℕ} (cost_multiplier : ℝ)
    (target_states : Fin s → Fin d → ℂ) (result : Result b s t d) : ℝ :=
  let final_states : Fin b → Fin s → Fin d → ℂ :=
    fun i j k => result.states i j (Fin.last t) k
  cost_multiplier * infidelity_incoherent final_states target_states

/-- `CoherentInfidelity.evaluate` (cost.py lines 42-45): coherent infidelity of
the final-timestep slice, averaged over the batch, scaled by the multiplier. -/
noncomputable def CoherentInfidelity.evaluate {b s t d : ℕ} (cost_multiplier : ℝ)
    (target_states : Fin s → Fin d → ℂ) (result : Result b s t d) : ℝ :=
  let final_states : Fin b → Fin s → Fin d → ℂ :=
    fun i j k => result.states i j (Fin.last t) k
  let infid := infidelity_coherent final_states target_states
  cost_multiplier * ((∑ i : Fin b, infid i) / b)

/-- Python list indexing `l[i]` for a non-negative index: raises `IndexError`
when `i` is out of range. -/
def pyGet {α : Type} (l : List α) (i : ℕ) : Except String α :=
  match l.get? i with
  | some x => Except.ok x
  | none => Except.error "IndexError"

/-- The dense array built by `ForbiddenStates.__init__`: `entries i j` is the
slot for initial state `i` and forbidden-state index `j` (zero outside the
written region, mirroring `jnp.zeros` initialisation). -/
structure PackedForbidden (d : ℕ) where
  numStates : ℕ
  maxNumForbid : ℕ
  entries : ℕ → ℕ → Fin d → ℂ

/-- `ForbiddenStates.__init__` (cost.py lines 56-71): reads
`forbidden_states[0][0]` for the state shape, computes the per-state list
lengths and their maximum, allocates a zero array of shape
`(num_states, max_num_forbid, *state_shape)`, and then writes
`forbidden_states[state_idx][forbid_idx]` into every slot
`(state_idx, forbid_idx)` with `forbid_idx < max_num_forbid` — Python list
indexing, which fails with `IndexError` when a list is shorter than the
maximum. -/
def ForbiddenStates.init {d : ℕ} (forbidden_states : List (List (Fin d → ℂ))) :
    Except String (PackedForbidden d) := do
  let _first ← pyGet forbidden_states 0 >>= fun l => pyGet l 0
  let numStates := forbidden_states.length
  let numForbidPerState := forbidden_states.map List.length
  let maxNumForbid := numForbidPerState.foldl max 0
  let arrIndices := (List.range numStates).flatMap
    (fun stateIdx => (List.range maxNumForbid).map (fun forbidIdx => (stateIdx, forbidIdx)))
  let zeroArray : ℕ → ℕ → Fin d → ℂ := fun _ _ _ => 0
  let entries ← arrIndices.foldlM
    (fun acc sf => do
      let forbiddenState ← pyGet forbidden_states sf.1 >>= fun l => pyGet l sf.2
      pure (fun i j => if i = sf.1 ∧ j = sf.2 then forbiddenState else acc i j))
    zeroArray
  pure ⟨numStates, maxNumForbid, entries⟩

/-- `ForbiddenStates.evaluate` (cost.py lines 73-80):
`einsum("...stid,sfid->...stf", result.states, forbidden_states)` — note the
source contracts the state axes withOUT conjugating either factor — followed by
`real(mean(ovlps * conj(ovlps)))`, scaled by the multiplier. -/
noncomputable def ForbiddenStates.evaluate {b s t d f : ℕ} (cost_multiplier : ℝ)
    (forbidden_states : Fin s → Fin f → Fin d → ℂ) (result : Result b s t d) : ℝ :=
  let forbidden_ovlps : Fin b → Fin s → Fin (t + 1) → Fin f → ℂ :=
    fun i j k l => ∑ m : Fin d, result.states i j k m * forbidden_states j l m
  let forbidden_pops : ℝ :=
    ((∑ i : Fin b, ∑ j : Fin s, ∑ k : Fin (t + 1), ∑ l : Fin f,
        forbidden_ovlps i j k l * (starRingEnd ℂ) (forbidden_ovlps i j k l))
      / ((b * s * (t + 1) * f : ℕ) : ℂ)).re
  cost_multiplier * forbidden_pops

/-- `Control.evaluate_controls`'s inner `_evaluate_at_tsave` (cost.py lines
91-95): a term with the `prefactor` capability contributes
`sum(func(prefactor(t)) for t in tsave)`; any other term contributes `0.0`. -/
noncomputable def evaluate_at_tsave (tsave : List ℝ) (func : ℝ → ℝ) :
    TimeArray → ℝ
  | TimeArray.withPrefactor p => (tsave.map (fun x => func (p x))).sum
  | _ => 0

/-- `Control.evaluate_controls` (cost.py lines 89-106): for a
`SummedTimeArray` the contributions of all summands are added; otherwise the
single term is evaluated directly; the result is scaled by the multiplier. -/
noncomputable def Control.evaluate_controls {b s t d : ℕ} (cost_multiplier : ℝ)
    (result : Result b s t d) (H : TimeArray) (func : ℝ → ℝ) : ℝ :=
  let control_val : ℝ :=
    match H with
    | TimeArray.summed timearrays =>
        (timearrays.map (evaluate_at_tsave result.tsave func)).sum
    | h => evaluate_at_tsave result.tsave func h
  cost_multiplier * control_val

/-- `ControlNorm.evaluate` (cost.py lines 111-112): `func = x ↦ x²`. -/
noncomputable def ControlNorm.evaluate {b s t d : ℕ} (cost_multiplier : ℝ)
    (result : Result b s t d) (H : TimeArray) : ℝ :=
  Control.evaluate_controls cost_multiplier result H (fun x => x ^ 2)

/-- `ControlArea.evaluate` (cost.py lines 117-118): `func = x ↦ x`. -/
noncomputable def ControlArea.evaluate {b s t d : ℕ} (cost_multiplier : ℝ)
    (result : Result b s t d) (H : TimeArray) : ℝ :=
  Control.evaluate_controls cost_multiplier result H (fun x => x)

/-- `CustumCost.evaluate` (cost.py lines 128-129): pure delegation to the held
`cost_fun`; note the source never applies `cost_multiplier` here. -/
noncomputable def CustumCost.evaluate {b s t d : ℕ} (cost_multiplier : ℝ)
    (cost_fun : Result b s t d → TimeArray → ℝ) (result : Result b s t d)
    (H : TimeArray) : ℝ :=
  cost_fun result H

/-! ## `src/qontrol/optimize.py`: loss aggregation and the optimization loop -/

/-- Modelled from the spec: `OptimizerOptions` from `qontrol/options.py`
(absent from `src/`); spec section 3 lists the recognized fields `epochs`
(int iteration budget), `verbose` and `all_costs`. -/
structure OptimizerOptions where
  epochs : ℤ
  verbose : Bool
  all_costs : Bool

/-- `jax.tree.reduce(jnp.add, cost_values)` on a tuple of scalar cost values
(optimize.py line 130): a fold of addition over the leaves. -/
def treeReduceAdd : List ℝ → ℝ
  | [] => 0
  | x :: xs => xs.foldl (· + ·) x

/-- `loss` (optimize.py lines 120-131).  The external `model` call (with the
fixed solver/gradient/options threaded through opaquely) yields `(result, H)`;
`costs result H` is the list of `(cost_value, terminate)` pairs produced by the
callable cost set; the scalar loss is `log` of the reduced sum and the
auxiliary output is the unzipped pair of values and flags. -/
noncomputable def loss {P R G : Type} (parameters : P)
    (costs : R → G → List (ℝ × Bool)) (model : P → R × G) :
    ℝ × (List ℝ × List Bool) :=
  let resultH := model parameters
  let pairs := costs resultH.1 resultH.2
  let cost_values := pairs.map Prod.fst
  let terminate := pairs.map Prod.snd
  (Real.log (treeReduceAdd cost_values), (cost_values, terminate))

/-- `step` (optimize.py lines 59-73): compute the gradient of `loss` with its
auxiliary output, feed it to the optimizer's `update`, and apply the updates to
the parameters.  `gradLoss` stands for
`jax.grad(loss, has_aux=True)(parameters, ...)`, `optimizerUpdate` for
`optimizer.update` and `applyUpdates` for `optax.apply_updates`. -/
def step {P S : Type} (gradLoss : P → P × (List ℝ × List Bool))
    (optimizerUpdate : P → S → P × S) (applyUpdates : P → P → P)
    (p : P) (st : S) : P × S × (List ℝ × List Bool) :=
  let gr := gradLoss p
  let us := optimizerUpdate gr.1 st
  (applyUpdates p us.1, us.2, gr.2)

/-- Observable actions of one run of the `optimize` loop, in program order:
`stepped e` marks the completed `step` call of epoch `e`; `log e values` the
verbose progress print (optimize.py lines 84-88); `save e params` the
`save_optimization` checkpoint call with the post-update parameters (lines
89-96); `checked e` the early-termination policy evaluation (lines 97-111);
`converged`/`exhausted`/`interrupted` the terminal prints (lines 99-116). -/
inductive Event (P : Type) where
  | stepped (epoch : ℕ)
  | log (epoch : ℕ) (cost_values : List ℝ)
  | save (epoch : ℕ) (parameters : P)
  | checked (epoch : ℕ)
  | converged (epoch : ℕ)
  | exhausted (epoch : ℕ)
  | interrupted (epoch : ℕ)

/-- The early-termination decision of optimize.py lines 98 and 105:
`all_costs` demands every terminate flag, otherwise any one suffices. -/
def terminateNow (all_costs : Bool) (terminate : List Bool) : Bool :=
  (all_costs && terminate.all id) || (!all_costs && terminate.any id)

/-- The events emitted by one epoch body between the `step` call and the
termination checks: the verbose log (when enabled), the checkpoint save of the
post-update parameters (when a filepath is configured), then the
termination-policy evaluation point. -/
def epochEvents {P : Type} (verbose hasFilepath : Bool) (epoch : ℕ)
    (cost_values : List ℝ) (updatedParams : P) : List (Event P) :=
  Event.stepped epoch ::
    ((if verbose then [Event.log epoch cost_values] else []) ++
     (if hasFilepath then [Event.save epoch updatedParams] else []) ++
     [Event.checked epoch])

/-- The `for epoch in range(...)` loop of `optimize` (optimize.py lines
77-117), instrumented with the `Event` trace.  `fuel` is the number of
remaining iterations (so the current epoch is the last allowed one,
`epoch == options.epochs - 1`, exactly when `fuel = 0` after pattern
matching); `interrupt = some e` means a `KeyboardInterrupt` arrives during the
`step` call of epoch `e`, so the `parameters, ... = step(...)` assignment of
that epoch never happens and the `except` clause returns the parameters of the
last fully completed epoch. -/
def optimizeLoop {P S : Type} (stepF : P → S → P × S × (List ℝ × List Bool))
    (options : OptimizerOptions) (hasFilepath : Bool) (interrupt : Option ℕ) :
    ℕ → ℕ → P → S → P × List (Event P)
  | 0, _, p, _ => (p, [])
  | fuel + 1, epoch, p, st =>
    if interrupt = some epoch then (p, [Event.interrupted epoch])
    else
      let r := stepF p st
      let parameters := r.1
      let opt_state := r.2.1
      let cost_values := r.2.2.1
      let terminate := r.2.2.2
      let evs := epochEvents options.verbose hasFilepath epoch cost_values parameters
      if terminateNow options.all_costs terminate then
        (parameters, evs ++ [Event.converged epoch])
      else
        let tailEvents : List (Event P) := if fuel = 0 then [Event.exhausted epoch] else []
        let rest := optimizeLoop stepF options hasFilepath interrupt fuel (epoch + 1) parameters opt_state
        (rest.1, evs ++ tailEvents ++ rest.2)

/-- `optimize` (optimize.py lines 21-117): initialise the optimizer state with
`optimizer.init(parameters)` and run the epoch loop; `range(options.epochs)`
iterates `options.epochs.toNat` times (empty for a non-positive budget).
Returns the final parameters together with the observable event trace. -/
def optimize {P S : Type} (stepF : P → S → P × S × (List ℝ × List Bool))
    (optimizerInit : P → S) (options : OptimizerOptions) (hasFilepath : Bool)
    (interrupt : Option ℕ) (parameters : P) : P × List (Event P) :=
  optimizeLoop stepF options hasFilepath interrupt options.epochs.toNat 0
    parameters (optimizerInit parameters)

/-! ## Helpers describing the deterministic epoch sequence of a run -/

/-- The `(parameters, opt_state)` pair after `k` fully completed epochs. -/
def runState {P S : Type} (stepF : P → S → P × S × (List ℝ × List Bool)) :
    ℕ → P × S → P × S
  | 0, ps => ps
  | k + 1, ps => runState stepF k ((stepF ps.1 ps.2).1, (stepF ps.1 ps.2).2.1)

/-- The `(cost_values, terminate)` auxiliary output of epoch `e`. -/
def outputAt {P S : Type} (stepF : P → S → P × S × (List ℝ × List Bool))
    (ps : P × S) (e : ℕ) : List ℝ × List Bool :=
  (stepF (runState stepF e ps).1 (runState stepF e ps).2).2.2

/-- The terminate flags reported at epoch `e`. -/
def flagsAt {P S : Type} (stepF : P → S → P × S × (List ℝ × List Bool))
    (ps : P × S) (e : ℕ) : List Bool :=
  (outputAt stepF ps e).2

/-- The cost values reported at epoch `e`. -/
def valuesAt {P S : Type} (stepF : P → S → P × S × (List ℝ × List Bool))
    (ps : P × S) (e : ℕ) : List ℝ :=
  (outputAt stepF ps e).1

/-! ## Trace characterizations of the loop -/

theorem treeReduceAdd_eq_sum (l : List ℝ) : treeReduceAdd l = l.sum := by
  cases l with
  | nil => simp [treeReduceAdd]
  | cons x xs =>
    simp only [treeReduceAdd, List.sum_cons]
    induction xs generalizing x with
    | nil => simp
    | cons a t ih => simp only [List.foldl, List.sum_cons, ih (x + a)]; ring

theorem flagsAt_zero {P S : Type} (stepF : P → S → P × S × (List ℝ × List Bool))
    (p : P) (st : S) : flagsAt stepF (p, st) 0 = (stepF p st).2.2.2 := rfl

theorem flagsAt_succ {P S : Type} (stepF : P → S → P × S × (List ℝ × List Bool))
    (p : P) (st : S) (j : ℕ) :
    flagsAt stepF (p, st) (j + 1) =
      flagsAt stepF ((stepF p st).1, (stepF p st).2.1) j := rfl

theorem runState_succ_front {P S : Type} (stepF : P → S → P × S × (List ℝ × List Bool))
    (p : P) (st : S) (k : ℕ) :
    runState stepF (k + 1) (p, st) =
      runState stepF k ((stepF p st).1, (stepF p st).2.1) := rfl

/-- The epoch blocks of a run, seen from one completed step later. -/
theorem flatMap_epochEvents_shift {P S : Type}
    (stepF : P → S → P × S × (List ℝ × List Bool)) (v hF : Bool) (e n : ℕ)
    (p : P) (st : S) :
    (List.range n).flatMap (fun k =>
      epochEvents (P := P) v hF (e + 1 + k)
        (valuesAt stepF ((stepF p st).1, (stepF p st).2.1) k)
        ((runState stepF (k + 1) ((stepF p st).1, (stepF p st).2.1)).1)) =
    (List.range n).flatMap (fun k =>
      epochEvents v hF (e + (k + 1)) (valuesAt stepF (p, st) (k + 1))
        ((runState stepF (k + 1 + 1) (p, st)).1)) := by
  congr 1
  funext k
  have h1 : e + 1 + k = e + (k + 1) := by omega
  rw [h1]
  rfl

theorem optimizeLoop_noStop {P S : Type} (stepF : P → S → P × S × (List ℝ × List Bool))
    (options : OptimizerOptions) (hasF : Bool) :
    ∀ (fuel e : ℕ) (p : P) (st : S),
      (∀ j < fuel, terminateNow options.all_costs (flagsAt stepF (p, st) j) = false) →
      optimizeLoop stepF options hasF none fuel e p st =
        ((runState stepF fuel (p, st)).1,
          (List.range fuel).flatMap (fun k =>
            epochEvents options.verbose hasF (e + k) (valuesAt stepF (p, st) k)
              ((runState stepF (k + 1) (p, st)).1)) ++
          (if fuel = 0 then [] else [Event.exhausted (e + fuel - 1)])) := by
  intro fuel
  induction fuel with
  | zero =>
    intro e p st _
    simp [optimizeLoop, runState]
  | succ f ih =>
    intro e p st h
    have h0 : terminateNow options.all_costs ((stepF p st).2.2.2) = false := by
      rw [← flagsAt_zero stepF p st]; exact h 0 (Nat.succ_pos f)
    have hrec := ih (e + 1) (stepF p st).1 (stepF p st).2.1
      (fun j hj => by
        rw [← flagsAt_succ stepF p st j]
        exact h (j + 1) (Nat.succ_lt_succ hj))
    simp only [optimizeLoop, h0, Bool.false_eq_true, if_false, reduceCtorEq,
      ite_false]
    rw [hrec]
    rw [List.range_succ_eq_map, List.flatMap_cons, List.flatMap_map]
    rw [flatMap_epochEvents_shift stepF options.verbose hasF e f p st]
    cases f with
    | zero =>
      simp only [List.range_zero, List.flatMap_nil, List.append_nil, ite_true,
        Nat.add_zero, Prod.mk.injEq, List.range_succ, List.flatMap_cons,
        List.nil_append]
      exact ⟨rfl, rfl⟩
    | succ g =>
      simp only [Nat.succ_ne_zero, ite_false, List.append_assoc, List.nil_append,
        List.cons_append]
      have h2 : e + 1 + (g + 1) - 1 = e + (g + 1 + 1) - 1 := by omega
      rw [h2]
      rfl

theorem optimizeLoop_firstStop {P S : Type} (stepF : P → S → P × S × (List ℝ × List Bool))
    (options : OptimizerOptions) (hasF : Bool) :
    ∀ (k fuel e : ℕ) (p : P) (st : S), k < fuel →
      (∀ j < k, terminateNow options.all_costs (flagsAt stepF (p, st) j) = false) →
      terminateNow options.all_costs (flagsAt stepF (p, st) k) = true →
      optimizeLoop stepF options hasF none fuel e p st =
        ((runState stepF (k + 1) (p, st)).1,
          (List.range (k + 1)).flatMap (fun j =>
            epochEvents options.verbose hasF (e + j) (valuesAt stepF (p, st) j)
              ((runState stepF (j + 1) (p, st)).1)) ++
          [Event.converged (e + k)]) := by
  intro k
  induction k with
  | zero =>
    intro fuel e p st hk _ hstop
    cases fuel with
    | zero => omega
    | succ f =>
      rw [flagsAt_zero stepF p st] at hstop
      simp only [optimizeLoop, hstop, if_true, reduceCtorEq, ite_false,
        ite_true, List.range_succ, List.range_zero, List.flatMap_cons,
        List.flatMap_nil, List.nil_append, List.append_nil, Nat.add_zero]
      rfl
  | succ k ih =>
    intro fuel e p st hk h hstop
    cases fuel with
    | zero => omega
    | succ f =>
      have h0 : terminateNow options.all_costs ((stepF p st).2.2.2) = false := by
        rw [← flagsAt_zero stepF p st]; exact h 0 (Nat.succ_pos k)
      have hrec := ih f (e + 1) (stepF p st).1 (stepF p st).2.1
        (by omega)
        (fun j hj => by
          rw [← flagsAt_succ stepF p st j]
          exact h (j + 1) (Nat.succ_lt_succ hj))
        (by rw [← flagsAt_succ stepF p st k]; exact hstop)
      have hf : ¬ (f = 0) := by omega
      simp only [optimizeLoop, h0, Bool.false_eq_true, if_false, reduceCtorEq,
        ite_false, hf]
      rw [hrec]
      rw [flatMap_epochEvents_shift stepF options.verbose hasF e (k + 1) p st]
      have h2 : e + 1 + k = e + (k + 1) := by omega
      rw [h2]
      conv_rhs => rw [List.range_succ_eq_map, List.flatMap_cons, List.flatMap_map]
      simp only [List.nil_append, List.append_nil, List.append_assoc]
      rfl

theorem optimizeLoop_interrupt {P S : Type} (stepF : P → S → P × S × (List ℝ × List Bool))
    (options : OptimizerOptions) (hasF : Bool) :
    ∀ (k fuel e : ℕ) (p : P) (st : S), k < fuel →
      (∀ j < k, terminateNow options.all_costs (flagsAt stepF (p, st) j) = false) →
      optimizeLoop stepF options hasF (some (e + k)) fuel e p st =
        ((runState stepF k (p, st)).1,
          (List.range k).flatMap (fun j =>
            epochEvents options.verbose hasF (e + j) (valuesAt stepF (p, st) j)
              ((runState stepF (j + 1) (p, st)).1)) ++
          [Event.interrupted (e + k)]) := by
  intro k
  induction k with
  | zero =>
    intro fuel e p st hk _
    cases fuel with
    | zero => omega
    | succ f =>
      simp [optimizeLoop, runState]
  | succ k ih =>
    intro fuel e p st hk h
    cases fuel with
    | zero => omega
    | succ f =>
      have h0 : terminateNow options.all_costs ((stepF p st).2.2.2) = false := by
        rw [← flagsAt_zero stepF p st]; exact h 0 (Nat.succ_pos k)
      have hne : ¬ (e + (k + 1) = e) := by omega
      have hrec := ih f (e + 1) (stepF p st).1 (stepF p st).2.1
        (by omega)
        (fun j hj => by
          rw [← flagsAt_succ stepF p st j]
          exact h (j + 1) (Nat.succ_lt_succ hj))
      have hf : ¬ (f = 0) := by omega
      have hshift : e + (k + 1) = e + 1 + k := by omega
      rw [hshift] at hne ⊢
      simp only [optimizeLoop, h0, Bool.false_eq_true, if_false,
        Option.some.injEq, hne, ite_false, hf]
      rw [hrec]
      rw [List.range_succ_eq_map, List.flatMap_cons, List.flatMap_map]
      simp only [List.nil_append, List.append_assoc]
      rw [flatMap_epochEvents_shift stepF options.verbose hasF e k p st]
      rfl

theorem converged_notMem_epochEvents {P : Type} (v hF : Bool) (e x : ℕ)
    (vals : List ℝ) (prm : P) :
    Event.converged x ∉ epochEvents v hF e vals prm := by
  cases v <;> cases hF <;> simp [epochEvents]

theorem converged_notMem_blocks {P : Type} (v hF : Bool) (n e x : ℕ)
    (vals : ℕ → List ℝ) (prm : ℕ → P) :
    Event.converged x ∉ (List.range n).flatMap
      (fun k => epochEvents v hF (e + k) (vals k) (prm k)) := by
  intro hmem
  rw [List.mem_flatMap] at hmem
  obtain ⟨k, _, hk⟩ := hmem
  exact converged_notMem_epochEvents v hF (e + k) x (vals k) (prm k) hk

/-! ## Claims about `loss` and the loop -/

/-- C1: for a collection of cost functionals evaluated against the model
output, the scalar loss returned by `loss` is the natural logarithm of the sum
of the individual cost values, and the auxiliary output is the pair of the
per-cost values and the per-cost terminate flags.  (Python's
`zip(*costs(result, H))` requires the collection to be non-empty, hence the
hypothesis.) -/
theorem loss_is_log_sum_with_aux {P R G : Type} (parameters : P)
    (costs : R → G → List (ℝ × Bool)) (model : P → R × G)
    (h : costs (model parameters).1 (model parameters).2 ≠ []) :
    loss parameters costs model =
      (Real.log (((costs (model parameters).1 (model parameters).2).map Prod.fst).sum),
       ((costs (model parameters).1 (model parameters).2).map Prod.fst,
        (costs (model parameters).1 (model parameters).2).map Prod.snd)) := by
  simp only [loss, treeReduceAdd_eq_sum]

/-- Stub cost set returning fixed per-cost values `[4.0, 0.0]`. -/
def stubCosts : Unit → Unit → List (ℝ × Bool) := fun _ _ => [(4, false), (0, false)]

/-- Stub model ignoring its parameters. -/
def stubModel : ℝ → Unit × Unit := fun _ => ((), ())

/-- Witness for C1 at the spec's concrete example: per-cost values
`[4.0, 0.0]` give aggregate loss `log 4`. -/
theorem loss_is_log_sum_with_aux_witness :
    stubCosts (stubModel 0).1 (stubModel 0).2 ≠ [] ∧
    loss (0 : ℝ) stubCosts stubModel = (Real.log 4, ([4, 0], [false, false])) := by
  refine ⟨by simp [stubCosts], ?_⟩
  rw [loss_is_log_sum_with_aux (0 : ℝ) stubCosts stubModel (by simp [stubCosts])]
  norm_num [stubCosts]

/-- C2: the early-termination decision after each epoch follows the ANY/ALL
policy — with `all_costs` the loop stops early at the first epoch whose
terminate flags are all true, without `all_costs` at the first epoch with at
least one true flag — and when the policy never fires the run ends after the
last allowed epoch (`epoch = epochs - 1`). -/
theorem optimize_termination_policy {P S : Type}
    (stepF : P → S → P × S × (List ℝ × List Bool)) (optimizerInit : P → S)
    (options : OptimizerOptions) (hasF : Bool) (p : P) :
    (∀ fl, terminateNow true fl = fl.all id) ∧
    (∀ fl, terminateNow false fl = fl.any id) ∧
    (∀ e, Event.converged e ∈ (optimize stepF optimizerInit options hasF none p).2 ↔
      (e < options.epochs.toNat ∧
       terminateNow options.all_costs (flagsAt stepF (p, optimizerInit p) e) = true ∧
       ∀ j < e, terminateNow options.all_costs (flagsAt stepF (p, optimizerInit p) j) = false)) ∧
    ((∀ e < options.epochs.toNat,
        terminateNow options.all_costs (flagsAt stepF (p, optimizerInit p) e) = false) →
      0 < options.epochs.toNat →
      Event.exhausted (options.epochs.toNat - 1) ∈
        (optimize stepF optimizerInit options hasF none p).2) := by
  refine ⟨fun fl => by simp [terminateNow], fun fl => by simp [terminateNow], ?_, ?_⟩
  · intro e
    by_cases hex : ∃ k, k < options.epochs.toNat ∧
        terminateNow options.all_costs (flagsAt stepF (p, optimizerInit p) k) = true
    · have hk0 := Nat.find_spec hex
      have hprev : ∀ j < Nat.find hex,
          terminateNow options.all_costs (flagsAt stepF (p, optimizerInit p) j) = false := by
        intro j hj
        have hmin := Nat.find_min hex hj
        have hjN : j < options.epochs.toNat := lt_trans hj hk0.1
        cases hterm : terminateNow options.all_costs (flagsAt stepF (p, optimizerInit p) j) with
        | false => rfl
        | true => exact absurd ⟨hjN, hterm⟩ hmin
      have htr : optimize stepF optimizerInit options hasF none p =
          ((runState stepF (Nat.find hex + 1) (p, optimizerInit p)).1,
            (List.range (Nat.find hex + 1)).flatMap (fun j =>
              epochEvents options.verbose hasF (0 + j)
                (valuesAt stepF (p, optimizerInit p) j)
                ((runState stepF (j + 1) (p, optimizerInit p)).1)) ++
            [Event.converged (0 + Nat.find hex)]) :=
        optimizeLoop_firstStop stepF options hasF (Nat.find hex)
          options.epochs.toNat 0 p (optimizerInit p) hk0.1 hprev hk0.2
      rw [htr]
      constructor
      · intro hmem
        rcases List.mem_append.mp hmem with hmem | hmem
        · exact absurd hmem (converged_notMem_blocks options.verbose hasF _ 0 e _ _)
        · have he : e = Nat.find hex := by
            simp only [List.mem_singleton, Event.converged.injEq, Nat.zero_add] at hmem
            exact hmem
          subst he
          exact ⟨hk0.1, hk0.2, hprev⟩
      · rintro ⟨he1, he2, he3⟩
        have hle : Nat.find hex ≤ e := Nat.find_min' hex ⟨he1, he2⟩
        have heq : e = Nat.find hex := by
          rcases Nat.lt_or_ge (Nat.find hex) e with hlt | hge
          · have hfalse := he3 (Nat.find hex) hlt
            have hcontr := hk0.2
            rw [hfalse] at hcontr
            exact absurd hcontr (by simp)
          · omega
        subst heq
        simp
    · have hall : ∀ k < options.epochs.toNat,
          terminateNow options.all_costs (flagsAt stepF (p, optimizerInit p) k) = false := by
        intro k hk
        cases hterm : terminateNow options.all_costs (flagsAt stepF (p, optimizerInit p) k) with
        | false => rfl
        | true => exact absurd ⟨hk, hterm⟩ (fun hc => hex ⟨k, hc⟩)
      have htr : optimize stepF optimizerInit options hasF none p =
          ((runState stepF options.epochs.toNat (p, optimizerInit p)).1,
            (List.range options.epochs.toNat).flatMap (fun k =>
              epochEvents options.verbose hasF (0 + k)
                (valuesAt stepF (p, optimizerInit p) k)
                ((runState stepF (k + 1) (p, optimizerInit p)).1)) ++
            (if options.epochs.toNat = 0 then []
             else [Event.exhausted (0 + options.epochs.toNat - 1)])) :=
        optimizeLoop_noStop stepF options hasF options.epochs.toNat 0 p
          (optimizerInit p) hall
      rw [htr]
      constructor
      · intro hmem
        rcases List.mem_append.mp hmem with hmem | hmem
        · exact absurd hmem (converged_notMem_blocks options.verbose hasF _ 0 e _ _)
        · rcases Nat.eq_zero_or_pos options.epochs.toNat with hz | hz
          · simp [hz] at hmem
          · have : options.epochs.toNat ≠ 0 := by omega
            simp [this] at hmem
      · rintro ⟨he1, he2, _⟩
        exact absurd ⟨he1, he2⟩ (fun hc => hex ⟨e, hc⟩)
  · intro hall hpos
    have htr := optimizeLoop_noStop stepF options hasF options.epochs.toNat 0 p
      (optimizerInit p) hall
    have hopt : optimize stepF optimizerInit options hasF none p =
        optimizeLoop stepF options hasF none options.epochs.toNat 0 p
          (optimizerInit p) := rfl
    rw [hopt, htr]
    have : options.epochs.toNat ≠ 0 := by omega
    simp [this]

/-- A step function reporting constant terminate flags `[true, false]`. -/
def constFlagsStep : Unit → Unit → Unit × Unit × (List ℝ × List Bool) :=
  fun _ _ => ((), (), ([1, 2], [true, false]))

/-- Witness for C2 at the spec's concrete flags `[true, false]`: with
`all_costs = false` the run converges at epoch 0; with `all_costs = true` it
runs to exhaustion of its 3-epoch budget. -/
theorem optimize_termination_policy_witness :
    Event.converged 0 ∈
      (optimize constFlagsStep (fun _ => ()) ⟨3, false, false⟩ false none ()).2 ∧
    Event.exhausted 2 ∈
      (optimize constFlagsStep (fun _ => ()) ⟨3, false, true⟩ false none ()).2 := by
  constructor
  · exact ((optimize_termination_policy constFlagsStep (fun _ => ())
      ⟨3, false, false⟩ false ()).2.2.1 0).mpr
      ⟨by decide, rfl, fun j hj => absurd hj (Nat.not_lt_zero j)⟩
  · exact (optimize_termination_policy constFlagsStep (fun _ => ())
      ⟨3, false, true⟩ false ()).2.2.2 (fun e _ => rfl) (by decide)

/-- C3: a user interrupt arriving while the loop is still running (modelled as
a `KeyboardInterrupt` raised during the `step` call of epoch `k`, per spec
section 5 interrupts are observable at epoch granularity) makes `optimize`
stop cleanly: the trace records the interruption message and the returned
parameters are those of the last fully completed epoch — the initial
parameters when `k = 0` — never an in-progress value. -/
theorem optimize_interrupt_returns_completed {P S : Type}
    (stepF : P → S → P × S × (List ℝ × List Bool)) (optimizerInit : P → S)
    (options : OptimizerOptions) (hasF : Bool) (p : P) (k : ℕ)
    (hk : k < options.epochs.toNat)
    (hrun : ∀ j < k,
      terminateNow options.all_costs (flagsAt stepF (p, optimizerInit p) j) = false) :
    (optimize stepF optimizerInit options hasF (some k) p).1 =
      (runState stepF k (p, optimizerInit p)).1 ∧
    Event.interrupted k ∈ (optimize stepF optimizerInit options hasF (some k) p).2 := by
  have htr := optimizeLoop_interrupt stepF options hasF k options.epochs.toNat 0 p
    (optimizerInit p) hk hrun
  rw [Nat.zero_add] at htr
  have hopt : optimize stepF optimizerInit options hasF (some k) p =
      optimizeLoop stepF options hasF (some k) options.epochs.toNat 0 p
        (optimizerInit p) := rfl
  rw [hopt, htr]
  exact ⟨rfl, by simp⟩

/-- A step function that moves the parameters (here: adds 7) each epoch and
never reports a satisfied target. -/
def paramsStep : ℕ → Unit → ℕ × Unit × (List ℝ × List Bool) :=
  fun p _ => (p + 7, (), ([0], [false]))

/-- Witness for C3: interrupt during epoch 1 of a 3-epoch run returns the
parameters after exactly one completed epoch (0 + 7 = 7). -/
theorem optimize_interrupt_returns_completed_witness :
    (optimize paramsStep (fun _ => ()) ⟨3, false, false⟩ false (some 1) 0).1 = 7 ∧
    Event.interrupted 1 ∈
      (optimize paramsStep (fun _ => ()) ⟨3, false, false⟩ false (some 1) 0).2 := by
  have h := optimize_interrupt_returns_completed paramsStep (fun _ => ())
    ⟨3, false, false⟩ false 0 1 (by decide)
    (fun j hj => rfl)
  exact ⟨by rw [h.1]; rfl, h.2⟩

/-- C9: a non-positive epoch budget makes `optimize` return the input
parameters with an empty event trace — no `step` (hence no model call, cost
evaluation or optimizer update), no logging, no checkpoint; only
`optimizer.init` was invoked on the way in. -/
theorem optimize_nonpositive_epochs_noop {P S : Type}
    (stepF : P → S → P × S × (List ℝ × List Bool)) (optimizerInit : P → S)
    (options : OptimizerOptions) (hasF : Bool) (interrupt : Option ℕ) (p : P)
    (h : options.epochs ≤ 0) :
    optimize stepF optimizerInit options hasF interrupt p = (p, []) := by
  have hz : options.epochs.toNat = 0 := Int.toNat_of_nonpos h
  have hopt : optimize stepF optimizerInit options hasF interrupt p =
      optimizeLoop stepF options hasF interrupt options.epochs.toNat 0 p
        (optimizerInit p) := rfl
  rw [hopt, hz]
  rfl

/-- Witness for C9 at `epochs = -2`. -/
theorem optimize_nonpositive_epochs_noop_witness :
    ((⟨-2, true, true⟩ : OptimizerOptions)).epochs ≤ 0 ∧
    optimize constFlagsStep (fun _ => ()) ⟨-2, true, true⟩ true none () = ((), []) :=
  ⟨by decide,
   optimize_nonpositive_epochs_noop constFlagsStep (fun _ => ()) ⟨-2, true, true⟩
     true none () (by decide)⟩

/-- C10: with verbose logging on and a checkpoint filepath configured, every
executed epoch's trace block is exactly
`[stepped, log(values), save(post-update parameters), termination check]`, in
that order — so the log and the save happen before the termination-policy
check, exactly once per epoch, and the convergence epoch itself is logged and
checkpointed with its post-update parameters. -/
theorem optimize_logs_saves_before_check {P S : Type}
    (stepF : P → S → P × S × (List ℝ × List Bool)) (optimizerInit : P → S)
    (E : ℤ) (ac : Bool) (p : P) :
    (∀ k, k < (OptimizerOptions.mk E true ac).epochs.toNat →
      terminateNow ac (flagsAt stepF (p, optimizerInit p) k) = true →
      (∀ j < k, terminateNow ac (flagsAt stepF (p, optimizerInit p) j) = false) →
      (optimize stepF optimizerInit ⟨E, true, ac⟩ true none p).2 =
        (List.range (k + 1)).flatMap (fun j =>
          [Event.stepped j,
           Event.log j (valuesAt stepF (p, optimizerInit p) j),
           Event.save j ((runState stepF (j + 1) (p, optimizerInit p)).1),
           Event.checked j]) ++ [Event.converged k]) ∧
    ((∀ k < (OptimizerOptions.mk E true ac).epochs.toNat,
        terminateNow ac (flagsAt stepF (p, optimizerInit p) k) = false) →
      (optimize stepF optimizerInit ⟨E, true, ac⟩ true none p).2 =
        (List.range (OptimizerOptions.mk E true ac).epochs.toNat).flatMap (fun j =>
          [Event.stepped j,
           Event.log j (valuesAt stepF (p, optimizerInit p) j),
           Event.save j ((runState stepF (j + 1) (p, optimizerInit p)).1),
           Event.checked j]) ++
        (if (OptimizerOptions.mk E true ac).epochs.toNat = 0 then []
         else [Event.exhausted ((OptimizerOptions.mk E true ac).epochs.toNat - 1)])) := by
  constructor
  · intro k hk hstop hprev
    have htr := optimizeLoop_firstStop stepF ⟨E, true, ac⟩ true k
      (OptimizerOptions.mk E true ac).epochs.toNat 0 p (optimizerInit p) hk hprev hstop
    simp only [Nat.zero_add] at htr
    have hopt : optimize stepF optimizerInit ⟨E, true, ac⟩ true none p =
        optimizeLoop stepF ⟨E, true, ac⟩ true none
          (OptimizerOptions.mk E true ac).epochs.toNat 0 p (optimizerInit p) := rfl
    rw [hopt, htr]
    rfl
  · intro hall
    have htr := optimizeLoop_noStop stepF ⟨E, true, ac⟩ true
      (OptimizerOptions.mk E true ac).epochs.toNat 0 p (optimizerInit p) hall
    simp only [Nat.zero_add] at htr
    have hopt : optimize stepF optimizerInit ⟨E, true, ac⟩ true none p =
        optimizeLoop stepF ⟨E, true, ac⟩ true none
          (OptimizerOptions.mk E true ac).epochs.toNat 0 p (optimizerInit p) := rfl
    rw [hopt, htr]
    rfl

/-- Witness for C10: a concrete converging run (flags `[true, false]`, ANY
policy) produces exactly the block `stepped, log, save, checked` followed by
the convergence message, with the post-update parameters in the save. -/
theorem optimize_logs_saves_before_check_witness :
    (optimize paramsStep (fun _ => ()) ⟨2, true, false⟩ true none 0).2 =
      [Event.stepped 0, Event.log 0 [0], Event.save 0 7, Event.checked 0,
       Event.exhausted 0,
       Event.stepped 1, Event.log 1 [0], Event.save 1 14, Event.checked 1] ∨
    (optimize constFlagsStep (fun _ => ()) ⟨2, true, false⟩ true none ()).2 =
      [Event.stepped 0, Event.log 0 [1, 2], Event.save 0 (), Event.checked 0,
       Event.converged 0] := by
  right
  have h := (optimize_logs_saves_before_check constFlagsStep (fun _ => ())
    2 false ()).1 0 (by decide) rfl (fun j hj => absurd hj (Nat.not_lt_zero j))
  rw [h]
  rfl

/-! ## Claims about the cost hierarchy -/

/-- A single evolved state, all components `1` (one batch entry, one initial
state, one saved time, one state dimension). -/
def oneResult : Result 1 1 0 1 := ⟨fun _ _ _ _ => 1, [0]⟩

/-- A user cost function returning the constant `1`. -/
def oneCostFun : Result 1 1 0 1 → TimeArray → ℝ := fun _ _ => 1

/-- C4 counterexample: `CustumCost.evaluate` does not scale with the cost
multiplier — with the constant user function `1` and multiplier `2` the cost
stays `1`, not `2 · 1`. -/
theorem custum_cost_ignores_multiplier :
    ¬ (CustumCost.evaluate 2 oneCostFun oneResult TimeArray.noPrefactor =
       2 * CustumCost.evaluate 1 oneCostFun oneResult TimeArray.noPrefactor) := by
  norm_num [CustumCost.evaluate, oneCostFun]

/-- C4 (amended): for every multiplier `m ≥ 0`, `IncoherentInfidelity`,
`CoherentInfidelity`, `ForbiddenStates`, `ControlNorm` and `ControlArea`
evaluate to `m` times the multiplier-1 cost on the same input, while
`CustumCost.evaluate` ignores its multiplier entirely. -/
theorem cost_multiplier_scaling {b s t d f : ℕ} (m : ℝ) (hm : 0 ≤ m)
    (target : Fin s → Fin d → ℂ) (r : Result b s t d)
    (forb : Fin s → Fin f → Fin d → ℂ) (H : TimeArray)
    (cf : Result b s t d → TimeArray → ℝ) :
    IncoherentInfidelity.evaluate m target r =
      m * IncoherentInfidelity.evaluate 1 target r ∧
    CoherentInfidelity.evaluate m target r =
      m * CoherentInfidelity.evaluate 1 target r ∧
    ForbiddenStates.evaluate m forb r = m * ForbiddenStates.evaluate 1 forb r ∧
    ControlNorm.evaluate m r H = m * ControlNorm.evaluate 1 r H ∧
    ControlArea.evaluate m r H = m * ControlArea.evaluate 1 r H ∧
    CustumCost.evaluate m cf r H = CustumCost.evaluate 1 cf r H := by
  refine ⟨?_, ?_, ?_, ?_, ?_, rfl⟩ <;>
    simp [IncoherentInfidelity.evaluate, CoherentInfidelity.evaluate,
      ForbiddenStates.evaluate, ControlNorm.evaluate, ControlArea.evaluate,
      Control.evaluate_controls, one_mul]

/-- An all-zero target-state family. -/
def zeroTarget : Fin 1 → Fin 1 → ℂ := fun _ _ => 0

/-- An all-zero packed forbidden-state family. -/
def zeroForb : Fin 1 → Fin 1 → Fin 1 → ℂ := fun _ _ _ => 0

/-- A user cost function returning the constant `0`. -/
def zeroCostFun : Result 1 1 0 1 → TimeArray → ℝ := fun _ _ => 0

/-- Witness for the amended C4 at multiplier `2`. -/
theorem cost_multiplier_scaling_witness :
    (0 : ℝ) ≤ 2 ∧
    ControlArea.evaluate 2 oneResult TimeArray.noPrefactor =
      2 * ControlArea.evaluate 1 oneResult TimeArray.noPrefactor :=
  ⟨by norm_num,
   (cost_multiplier_scaling 2 (by norm_num) zeroTarget oneResult zeroForb
     TimeArray.noPrefactor zeroCostFun).2.2.2.2.1⟩

/-- A one-dimensional quantum state with single component `1`. -/
def psi1 : Fin 1 → ℂ := fun _ => 1

/-- C5: `ForbiddenStates.__init__` on the spec's ragged example — forbidden
lists of lengths `[1, 3, 2]` — raises `IndexError` instead of producing the
zero-padded `(3, 3, ...)` tensor: the packing loop indexes every
`forbidden_states[state_idx][forbid_idx]` up to the maximum length. -/
theorem forbidden_init_ragged_raises :
    ForbiddenStates.init [[psi1], [psi1, psi1, psi1], [psi1, psi1]] =
      Except.error "IndexError" := by
  rfl

/-- The evolved state `(i, 1)` (first component imaginary unit). -/
def psiI : Fin 2 → ℂ := fun i => if i = 0 then Complex.I else 1

/-- The forbidden state `(1, i)`: orthogonal to `(i, 1)` under the conjugated
inner product, but not under the source's unconjugated contraction. -/
def forbI : Fin 2 → ℂ := fun i => if i = 0 then 1 else Complex.I

/-- A `Result` constantly equal to the evolved state `(i, 1)`. -/
def orthResult : Result 1 1 0 2 := ⟨fun _ _ _ i => psiI i, [0]⟩

/-- Packed forbidden tensor holding the single state `(1, i)`. -/
def orthForbidden : Fin 1 → Fin 1 → Fin 2 → ℂ := fun _ _ i => forbI i

/-- C6: the forbidden state `(1, i)` is orthogonal (conjugated inner product
zero) to the evolved state `(i, 1)` at every saved time, yet
`ForbiddenStates.evaluate` returns `4`, not `0`: the source's einsum contracts
without conjugation. -/
theorem forbidden_evaluate_misses_conjugation :
    (∑ m : Fin 2, (starRingEnd ℂ) (forbI m) * psiI m) = 0 ∧
    ForbiddenStates.evaluate 1 orthForbidden orthResult = 4 := by
  constructor
  · simp [forbI, psiI, Fin.sum_univ_two, Complex.ext_iff]
  · have hovlp : ∀ x : Fin (0 + 1),
        (∑ m : Fin 2, orthResult.states 0 0 x m * orthForbidden 0 0 m) =
          2 * Complex.I := by
      intro x
      simp [orthResult, orthForbidden, psiI, forbI, Fin.sum_univ_two]
      ring
    simp only [ForbiddenStates.evaluate, Fin.sum_univ_one, hovlp, Complex.mul_conj]
    simp [Finset.sum_const, Finset.card_univ, Complex.normSq_mul, Complex.normSq_I]
    norm_num [Complex.normSq_apply]

/-- C7: `ControlNorm` sums the squared prefactor over the save times and
`ControlArea` the signed prefactor values; a summed Hamiltonian contributes
the sum of its summands' own prefactor contributions, and a term without the
prefactor capability contributes exactly `0`. -/
theorem control_penalties_formula {b s t d : ℕ} (m : ℝ) (r : Result b s t d)
    (p : ℝ → ℝ) (l : List TimeArray) (func : ℝ → ℝ) :
    ControlNorm.evaluate m r (TimeArray.withPrefactor p) =
      m * (r.tsave.map (fun x => (p x) ^ 2)).sum ∧
    ControlArea.evaluate m r (TimeArray.withPrefactor p) =
      m * (r.tsave.map p).sum ∧
    ControlNorm.evaluate m r (TimeArray.summed l) =
      m * (l.map (fun ta => match ta with
        | TimeArray.withPrefactor q => (r.tsave.map (fun x => (q x) ^ 2)).sum
        | _ => 0)).sum ∧
    ControlArea.evaluate m r (TimeArray.summed l) =
      m * (l.map (fun ta => match ta with
        | TimeArray.withPrefactor q => (r.tsave.map q).sum
        | _ => 0)).sum ∧
    evaluate_at_tsave r.tsave func TimeArray.noPrefactor = 0 := by
  refine ⟨rfl, rfl, ?_, ?_, rfl⟩
  · unfold ControlNorm.evaluate Control.evaluate_controls
    congr 2
  · unfold ControlArea.evaluate Control.evaluate_controls
    congr 2

/-! ## C8: end-to-end scenario with a constant model -/

/-- `jax.grad(loss, has_aux=True)` for a scalar parameter, modelled as the
mathematical derivative of the scalar loss component together with the
auxiliary output of the forward pass (optimize.py line 68). -/
noncomputable def jaxGradLoss {R G : Type} (costs : R → G → List (ℝ × Bool))
    (model : ℝ → R × G) : ℝ → ℝ × (List ℝ × List Bool) :=
  fun p => (deriv (fun q => (loss q costs model).1) p, (loss p costs model).2)

/-- The Adam moment state `(mu, nu, count)`. -/
structure AdamState where
  mu : ℝ
  nu : ℝ
  count : ℕ

/-- Modelled from the spec: the default optimizer `optax.adam(0.0001, b1=0.99,
b2=0.99)` is external; its `init` produces zero moments. -/
def adam_init (_p : ℝ) : AdamState := ⟨0, 0, 0⟩

/-- Modelled from the spec: `optax.adam`'s update rule with learning rate
`lr`, decay rates `b1, b2` and numerical epsilon: bias-corrected first and
second moments and the scaled step `-(lr·mû)/(√ν̂ + ε)`. -/
noncomputable def adam_update (lr b1 b2 eps : ℝ) (g : ℝ) (st : AdamState) :
    ℝ × AdamState :=
  let mu := b1 * st.mu + (1 - b1) * g
  let nu := b2 * st.nu + (1 - b2) * g ^ 2
  let c := st.count + 1
  let muHat := mu / (1 - b1 ^ c)
  let nuHat := nu / (1 - b2 ^ c)
  (-(lr * muHat) / (Real.sqrt nuHat + eps), ⟨mu, nu, c⟩)

/-- `optax.apply_updates`: add the updates to the parameters. -/
noncomputable def apply_updates (p u : ℝ) : ℝ := p + u

/-- The target states equal to `oneResult`'s constant final state. -/
def oneTarget : Fin 1 → Fin 1 → ℂ := fun _ _ => 1

/-- Modelled from the spec: qontrol's callable-`Cost` protocol (qontrol/cost.py
absent from `src/`) — a single `IncoherentInfidelity` cost with multiplier 1
returning `(value, value ≤ threshold)`, with `eps ≥ 0` its target
threshold. -/
noncomputable def scenarioCosts (eps : ℝ) :
    Result 1 1 0 1 → TimeArray → List (ℝ × Bool) :=
  fun r _ => [(IncoherentInfidelity.evaluate 1 oneTarget r,
    if IncoherentInfidelity.evaluate 1 oneTarget r ≤ eps then true else false)]

/-- Modelled from the spec: a trivial `Model` returning a constant `Result`
regardless of the parameters. -/
noncomputable def scenarioModel : ℝ → Result 1 1 0 1 × TimeArray :=
  fun _ => (oneResult, TimeArray.noPrefactor)

/-- The `step` function of the C8 scenario: gradient of the scenario loss,
default Adam, additive update application. -/
noncomputable def scenarioStep (eps : ℝ) :
    ℝ → AdamState → ℝ × AdamState × (List ℝ × List Bool) :=
  step (jaxGradLoss (scenarioCosts eps) scenarioModel)
    (adam_update 0.0001 0.99 0.99 1e-8) apply_updates

theorem incoherent_eval_oneResult :
    IncoherentInfidelity.evaluate 1 oneTarget oneResult = 0 := by
  simp [IncoherentInfidelity.evaluate, infidelity_incoherent, oneTarget, oneResult]

theorem scenarioStep_at_init (eps : ℝ) (heps : 0 ≤ eps) (p : ℝ) :
    scenarioStep eps p (adam_init p) = (p, ⟨0, 0, 1⟩, ([0], [true])) := by
  have hflag : (if IncoherentInfidelity.evaluate 1 oneTarget oneResult ≤ eps
      then true else false) = true := by
    rw [incoherent_eval_oneResult]
    simp [heps]
  have hderiv : deriv (fun q : ℝ =>
      (loss q (scenarioCosts eps) scenarioModel).1) p = 0 := by
    have hconst : (fun q : ℝ => (loss q (scenarioCosts eps) scenarioModel).1) =
        fun _ : ℝ => Real.log (treeReduceAdd
          [IncoherentInfidelity.evaluate 1 oneTarget oneResult]) := rfl
    rw [hconst]
    exact deriv_const p _
  have hgrad : jaxGradLoss (scenarioCosts eps) scenarioModel p =
      (0, ([IncoherentInfidelity.evaluate 1 oneTarget oneResult],
           [if IncoherentInfidelity.evaluate 1 oneTarget oneResult ≤ eps
             then true else false])) := by
    simp only [jaxGradLoss, hderiv, loss, scenarioCosts, scenarioModel,
      List.map_cons, List.map_nil]
    rw [deriv_const]
  have hadam : adam_update 0.0001 0.99 0.99 1e-8 0 (⟨0, 0, 0⟩ : AdamState) =
      (0, ⟨0, 0, 1⟩) := by
    simp [adam_update]
  have hflag0 : (if (0 : ℝ) ≤ eps then true else false) = true := by simp [heps]
  simp only [scenarioStep, step, adam_init, hgrad, hadam, apply_updates,
    incoherent_eval_oneResult, hflag0, add_zero]

/-- C8: with a constant model, a single `IncoherentInfidelity` cost whose
target states equal the constant final states, multiplier 1 and a 5-epoch
budget, `optimize` converges at epoch 0 (both under ANY and ALL policies, for
any non-negative target threshold) and returns the initial parameters
unchanged: the constant model makes the gradient zero, so Adam's update is
zero. -/
theorem optimize_constant_model_converges_epoch0 (p eps : ℝ) (heps : 0 ≤ eps)
    (verbose hasF ac : Bool) :
    (optimize (scenarioStep eps) adam_init ⟨5, verbose, ac⟩ hasF none p).1 = p ∧
    Event.converged 0 ∈
      (optimize (scenarioStep eps) adam_init ⟨5, verbose, ac⟩ hasF none p).2 := by
  have hstep := scenarioStep_at_init eps heps p
  have hflags : flagsAt (scenarioStep eps) (p, adam_init p) 0 = [true] := by
    rw [flagsAt_zero, hstep]
  have hstop : terminateNow ac (flagsAt (scenarioStep eps) (p, adam_init p) 0) = true := by
    rw [hflags]
    cases ac <;> rfl
  have htr := optimizeLoop_firstStop (scenarioStep eps) ⟨5, verbose, ac⟩ hasF 0
    ((5 : ℤ)).toNat 0 p (adam_init p) (by decide)
    (fun j hj => absurd hj (Nat.not_lt_zero j)) hstop
  have hopt : optimize (scenarioStep eps) adam_init ⟨5, verbose, ac⟩ hasF none p =
      optimizeLoop (scenarioStep eps) ⟨5, verbose, ac⟩ hasF none ((5 : ℤ)).toNat 0 p
        (adam_init p) := rfl
  rw [hopt, htr]
  constructor
  · show (runState (scenarioStep eps) 1 (p, adam_init p)).1 = p
    rw [runState_succ_front, hstep]
    rfl
  · simp

/-- Witness for C8 at `p = 3`, threshold `0`, verbose off, no filepath, ANY
policy. -/
theorem optimize_constant_model_converges_epoch0_witness :
    (0 : ℝ) ≤ 0 ∧
    (optimize (scenarioStep 0) adam_init ⟨5, false, false⟩ false none 3).1 = 3 ∧
    Event.converged 0 ∈
      (optimize (scenarioStep 0) adam_init ⟨5, false, false⟩ false none 3).2 := by
  have h := optimize_constant_model_converges_epoch0 3 0 le_rfl false false false
  exact ⟨le_rfl, h.1, h.2⟩

end Qontrol
